import Mathlib

/-!
Shallow embedding of the adaptive_PDE_solver repository (src/grids.py,
src/utils.py, src/solvers.py) over exact rationals.

Machine floats are modelled as `ℚ`; `np.exp` is modelled as an unspecified
function parameter `ex : ℚ → ℚ` threaded through every definition that the
source feeds to `np.exp`, so theorems quantify over every possible
exponential and concrete evaluations instantiate it.  Fallible numpy calls
(`np.gradient` with mismatched coordinate/value lengths, which raises
`ValueError` in the source) are modelled with `Option`.  List indexing uses
`getD` with default `0`; every stated theorem keeps indices in the ranges
the source actually touches, so the defaults are never consulted there.
-/

/-- np.linspace(a, b, n): `n` equally spaced points from `a` to `b`
inclusive (grids.py uses it via `uniform_grid`, solvers.py for the time
grid).  For `n = 1` numpy returns `[a]`; the `ℚ` division by `0` gives the
same value here. -/
def linspace (a b : ℚ) (n : ℕ) : List ℚ :=
  (List.range n).map fun (i : ℕ) => a + (b - a) * (i : ℚ) / ((n : ℚ) - 1)

/-- grids.py `uniform_grid(S_min, S_max, N)`: a uniform grid in S. -/
def uniform_grid (S_min S_max : ℚ) (N : ℕ) : List ℚ :=
  linspace S_min S_max N

/-- Helper for `adaptive_grid`: the body of the python loop
`for i in range(1, len(S))`, carrying the previous grid point `prev` and
its flag `pm`.  For each next point `y` with flag `b` it appends `y` and,
if either flag is set, the midpoint `(prev + y)/2` — exactly
grids.py lines 11-15.  A flag list shorter than the grid raises
`IndexError` in the source; the model is only used under the alignment
hypothesis `mask.length = S.length`, where the catch-all case is never
reached. -/
def refineRawAux (prev : ℚ) (pm : Bool) : List ℚ → List Bool → List ℚ
  | y :: S, b :: m =>
      y :: ((if pm || b then [(prev + y) / 2] else []) ++ refineRawAux y b S m)
  | _, _ => []

/-- The raw (pre-`np.unique`) list `S_new` built by grids.py
`adaptive_grid`: the first grid point followed by the loop of
`refineRawAux`.  An empty grid raises `IndexError` (`S[0]`) in the source;
a one-point grid never consults the mask. -/
def refineRawList : List ℚ → List Bool → List ℚ
  | [], _ => []
  | [y], _ => [y]
  | y :: S, b :: m => y :: refineRawAux y b S m
  | y :: _, [] => [y]

/-- grids.py `adaptive_grid(S, refine_mask)`: build the raw refined list,
then `np.unique` (sort ascending and remove duplicates); the following
in-place `S_new.sort()` is a no-op on the already sorted array. -/
def adaptive_grid (S : List ℚ) (mask : List Bool) : List ℚ :=
  ((refineRawList S mask).insertionSort (· ≤ ·)).dedup

/-- utils.py `payoff(S, K, option_type)`: elementwise `max(S-K, 0)` when
`option_type == 'call'`, else elementwise `max(K-S, 0)`. -/
def payoff (S : List ℚ) (K : ℚ) (option_type : String) : List ℚ :=
  if option_type = "call" then S.map fun s => max (s - K) 0
  else S.map fun s => max (K - s) 0

/-- utils.py `apply_boundary_conditions(V, S, K, r, tau, option_type)`:
overwrite `V[0]` and `V[-1]` (here functionally, via `List.set`; the
source mutates and returns the same array).  `np.exp` is the parameter
`ex`. -/
def apply_boundary_conditions (ex : ℚ → ℚ) (V S : List ℚ) (K r tau : ℚ)
    (option_type : String) : List ℚ :=
  if option_type = "call" then
    (V.set 0 0).set (V.length - 1) (S.getLastD 0 - K * ex (-r * tau))
  else
    (V.set 0 (K * ex (-r * tau))).set (V.length - 1) 0

/-- solvers.py lines 9-17: the attributes stored by
`FiniteDifferenceSolver.__init__` (no validation is performed there). -/
structure FiniteDifferenceSolver where
  S_max : ℚ
  K : ℚ
  r : ℚ
  sigma : ℚ
  T : ℚ
  N_S : ℕ
  N_t : ℕ
  option_type : String

/-- solvers.py lines 49-53: `AdaptiveSolver.__init__` stores the parent
attributes plus the two refinement parameters (again no validation). -/
structure AdaptiveSolver extends FiniteDifferenceSolver where
  refine_tol : ℚ
  max_refine_steps : ℕ

/-- The spatial grid `S = uniform_grid(0, S_max, N_S)` of
`FiniteDifferenceSolver.solve`. -/
def FiniteDifferenceSolver.Sgrid (p : FiniteDifferenceSolver) : List ℚ :=
  uniform_grid 0 p.S_max p.N_S

/-- The time grid `t = np.linspace(0, T, N_t + 1)` of both solvers. -/
def FiniteDifferenceSolver.tgrid (p : FiniteDifferenceSolver) : List ℚ :=
  linspace 0 p.T (p.N_t + 1)

/-- `dS = S[1] - S[0]` (solvers.py line 22; `IndexError` for `N_S < 2` in
the source, hence theorems about the uniform solver assume `2 ≤ N_S`). -/
def FiniteDifferenceSolver.dS (p : FiniteDifferenceSolver) : ℚ :=
  p.Sgrid.getD 1 0 - p.Sgrid.getD 0 0

/-- `dt = t[1] - t[0]` (solvers.py line 23; `IndexError` for `N_t = 0`). -/
def FiniteDifferenceSolver.dt (p : FiniteDifferenceSolver) : ℚ :=
  p.tgrid.getD 1 0 - p.tgrid.getD 0 0

/-- One explicit uniform-grid time transition, solvers.py lines 30-39: the
row is first a copy of the row above, then every interior index
`1 ≤ i < N_S - 1` is overwritten with the central-difference update. -/
def interiorUpdate (sigma r dt dS : ℚ) (N_S : ℕ) (S Vp : List ℚ) : List ℚ :=
  (List.range Vp.length).map fun i =>
    if 1 ≤ i ∧ i + 1 < N_S then
      let Si := S.getD i 0
      let delta := (Vp.getD (i + 1) 0 - Vp.getD (i - 1) 0) / (2 * dS)
      let gamma := (Vp.getD (i + 1) 0 - 2 * Vp.getD i 0 + Vp.getD (i - 1) 0) / dS ^ 2
      Vp.getD i 0 + dt * (1/2 * sigma ^ 2 * Si ^ 2 * gamma + r * Si * delta - r * Vp.getD i 0)
    else Vp.getD i 0

/-- The value row of `FiniteDifferenceSolver.solve` that is `k` backward
time steps below maturity (so time index `n = N_t - k`): `row 0` is the
terminal payoff `V[-1, :] = payoff(S, K, option_type)` and `row (k+1)`
applies the interior update followed by
`apply_boundary_conditions(·, S, K, r, T - t[n], option_type)`. -/
def FiniteDifferenceSolver.row (p : FiniteDifferenceSolver) (ex : ℚ → ℚ) :
    ℕ → List ℚ
  | 0 => payoff p.Sgrid p.K p.option_type
  | k + 1 =>
      apply_boundary_conditions ex
        (interiorUpdate p.sigma p.r p.dt p.dS p.N_S p.Sgrid (p.row ex k))
        p.Sgrid p.K p.r
        (p.T - p.tgrid.getD (p.N_t - (k + 1)) 0) p.option_type

/-- The value array at time index `n` of the uniform solver,
`V[n, :]`. -/
def FiniteDifferenceSolver.V (p : FiniteDifferenceSolver) (ex : ℚ → ℚ)
    (n : ℕ) : List ℚ :=
  p.row ex (p.N_t - n)

/-- The full return value `(S, t, V)` of `FiniteDifferenceSolver.solve`. -/
def FiniteDifferenceSolver.solve (p : FiniteDifferenceSolver) (ex : ℚ → ℚ) :
    List ℚ × List ℚ × List (List ℚ) :=
  (p.Sgrid, p.tgrid, (List.range (p.N_t + 1)).map (p.V ex))

/-- The interior entry of `np.gradient(f, x)` at index `i` with unequal
spacings `dx1 = x[i] - x[i-1]`, `dx2 = x[i+1] - x[i]` (numpy second-order
stencil), and the one-sided first-order differences at the two edges
(default `edge_order=1`). -/
def gradAt (f x : List ℚ) (i : ℕ) : ℚ :=
  if i = 0 then
    (f.getD 1 0 - f.getD 0 0) / (x.getD 1 0 - x.getD 0 0)
  else if i = f.length - 1 then
    (f.getD i 0 - f.getD (i - 1) 0) / (x.getD i 0 - x.getD (i - 1) 0)
  else
    let dx1 := x.getD i 0 - x.getD (i - 1) 0
    let dx2 := x.getD (i + 1) 0 - x.getD i 0
    (-dx2 / (dx1 * (dx1 + dx2))) * f.getD (i - 1) 0
      + ((dx2 - dx1) / (dx1 * dx2)) * f.getD i 0
      + (dx1 / (dx2 * (dx1 + dx2))) * f.getD (i + 1) 0

/-- `np.gradient(f, x)` for 1-d arrays: defined only when the coordinate
array has the same length as the value array and there are at least two
samples; otherwise numpy raises `ValueError`, modelled as `none`. -/
def npGradient (f x : List ℚ) : Option (List ℚ) :=
  if f.length = x.length ∧ 2 ≤ f.length then
    some ((List.range f.length).map (gradAt f x))
  else none

/-- Pointwise `np.interp(z, xs, fs)`: clamp to the end values outside the
range of `xs`, else linear interpolation on the bracketing interval. -/
def interpPt (z : ℚ) : List ℚ → List ℚ → ℚ
  | x0 :: x1 :: xs, f0 :: f1 :: fs =>
      if z ≤ x0 then f0
      else if z ≤ x1 then f0 + (f1 - f0) * (z - x0) / (x1 - x0)
      else interpPt z (x1 :: xs) (f1 :: fs)
  | _ :: _, f0 :: _ => f0
  | _, _ => 0

/-- The refinement flags `np.abs(np.gradient(...)) > refine_tol`
(solvers.py line 73). -/
def absMask (tol : ℚ) (grad : List ℚ) : List Bool :=
  grad.map fun g => decide (tol < |g|)

/-- The refinement sub-loop of `AdaptiveSolver.solve`, solvers.py lines
71-80: up to `fuel` iterations; each computes the gradient (`none` if the
value/coordinate lengths mismatch — the `ValueError` path), stops when no
flag is set or when `adaptive_grid` returns a grid of unchanged length,
and otherwise interpolates the values onto the refined grid and
repeats. -/
def refineLoop (tol : ℚ) : ℕ → List ℚ × List ℚ → Option (List ℚ × List ℚ)
  | 0, st => some st
  | fuel + 1, (Sc, Vc) =>
      match npGradient Vc Sc with
      | none => none
      | some grad =>
          let mask := absMask tol grad
          if mask.any id then
            let Snew := adaptive_grid Sc mask
            if Snew.length = Sc.length then some (Sc, Vc)
            else refineLoop tol fuel (Snew, Snew.map fun z => interpPt z Sc Vc)
          else some (Sc, Vc)

/-- The non-uniform explicit transition of `AdaptiveSolver.solve`,
solvers.py lines 82-99: `Vn1 = np.zeros_like(V_curr)` and every index
`1 ≤ i < len(S_curr) - 1` receives the non-uniform central-difference
update (the other entries keep the zero initialisation until the boundary
overwrite). -/
def nonUniformUpdate (sigma r dt : ℚ) (Sc Vc : List ℚ) : List ℚ :=
  (List.range Vc.length).map fun i =>
    if 1 ≤ i ∧ i + 1 < Sc.length then
      let Si := Sc.getD i 0
      let dS_left := Sc.getD i 0 - Sc.getD (i - 1) 0
      let dS_right := Sc.getD (i + 1) 0 - Sc.getD i 0
      let delta := (Vc.getD (i + 1) 0 - Vc.getD (i - 1) 0) / (dS_right + dS_left)
      let gamma := 2 * ((Vc.getD (i + 1) 0 - Vc.getD i 0) / dS_right -
        (Vc.getD i 0 - Vc.getD (i - 1) 0) / dS_left) / (dS_right + dS_left)
      Vc.getD i 0 + dt * (1/2 * sigma ^ 2 * Si ^ 2 * gamma + r * Si * delta - r * Vc.getD i 0)
    else 0

/-- One iteration of the time loop of `AdaptiveSolver.solve` (solvers.py
lines 66-103) at time index `n`: the refinement sub-loop starting — as in
the source — from the pair `(S, Vn)` where `S` is the *initial* uniform
grid (`S_curr = S.copy()`, line 69) and `Vn` the values finalized at time
index `n+1`; then the non-uniform transition and the boundary overwrite
with `tau = T - t[n]`.  Returns the finalized pair `(S_curr, Vn)` for time
index `n`, or `none` when the sub-loop hits the `ValueError` path. -/
def AdaptiveSolver.timeStep (p : AdaptiveSolver) (ex : ℚ → ℚ)
    (S Vn : List ℚ) (n : ℕ) : Option (List ℚ × List ℚ) :=
  let t := linspace 0 p.T (p.N_t + 1)
  let dt := t.getD 1 0 - t.getD 0 0
  match refineLoop p.refine_tol p.max_refine_steps (S, Vn) with
  | none => none
  | some (Sc, Vc) =>
      let Vn1 := nonUniformUpdate p.sigma p.r dt Sc Vc
      some (Sc, apply_boundary_conditions ex Vn1 Sc p.K p.r (p.T - t.getD n 0) p.option_type)

/-- The backward time loop `for n in reversed(range(N_t))` of
`AdaptiveSolver.solve`, run for `k` remaining steps with current values
`Vn` (time index `k`): returns the finalized `(S_curr, V)` pairs for time
indices `k-1, k-2, …, 0` in that order, or `none` as soon as one step
raises. -/
def AdaptiveSolver.steps (p : AdaptiveSolver) (ex : ℚ → ℚ) (S : List ℚ) :
    ℕ → List ℚ → Option (List (List ℚ × List ℚ))
  | 0, _ => some []
  | k + 1, Vn =>
      match p.timeStep ex S Vn k with
      | none => none
      | some (Sc, Vnew) =>
          match p.steps ex S k Vnew with
          | none => none
          | some rest => some ((Sc, Vnew) :: rest)

/-- `AdaptiveSolver.solve` (solvers.py lines 55-105, without the optional
`grids` history, which no claim concerns): the per-time-index lists
`S_list`, the time grid `t`, and `V_list`, with index `N_t` holding the
initial grid and terminal payoff and index `n < N_t` holding the step
results.  `none` models the solve raising an uncaught exception. -/
def AdaptiveSolver.solve (p : AdaptiveSolver) (ex : ℚ → ℚ) :
    Option (List (List ℚ) × List ℚ × List (List ℚ)) :=
  let S := uniform_grid 0 p.S_max p.N_S
  let V0 := payoff S p.K p.option_type
  (p.steps ex S p.N_t V0).map fun steps =>
    (steps.reverse.map Prod.fst ++ [S],
     p.tgrid,
     steps.reverse.map Prod.snd ++ [V0])

/-- A concrete stand-in for `np.exp` used in closed evaluations: the
constant function `1`.  Every closed theorem below that instantiates `ex`
with `exOne` does so at configurations with `r = 0`, where the source only
ever evaluates `np.exp` at `0` and `exp 0 = 1` exactly, so `exOne` agrees
with the real exponential at every point actually used. -/
def exOne : ℚ → ℚ := fun _ => 1

/-! ### Basic length and access lemmas -/

theorem linspace_length (a b : ℚ) (n : ℕ) : (linspace a b n).length = n := by
  unfold linspace; rw [List.length_map, List.length_range]

theorem linspace_getD (a b : ℚ) (n i : ℕ) (h : i < n) (d : ℚ) :
    (linspace a b n).getD i d = a + (b - a) * (i : ℚ) / ((n : ℚ) - 1) := by
  unfold linspace
  rw [List.getD_eq_getElem?_getD, List.getElem?_map, List.getElem?_range h]
  rfl

theorem payoff_length (S : List ℚ) (K : ℚ) (ot : String) :
    (payoff S K ot).length = S.length := by
  unfold payoff; split <;> simp

theorem apply_boundary_conditions_length (ex : ℚ → ℚ) (V S : List ℚ)
    (K r tau : ℚ) (ot : String) :
    (apply_boundary_conditions ex V S K r tau ot).length = V.length := by
  unfold apply_boundary_conditions; split <;> simp

theorem interiorUpdate_length (sigma r dt dS : ℚ) (N_S : ℕ) (S Vp : List ℚ) :
    (interiorUpdate sigma r dt dS N_S S Vp).length = Vp.length := by
  simp [interiorUpdate]

theorem nonUniformUpdate_length (sigma r dt : ℚ) (Sc Vc : List ℚ) :
    (nonUniformUpdate sigma r dt Sc Vc).length = Vc.length := by
  simp [nonUniformUpdate]

theorem Sgrid_length (p : FiniteDifferenceSolver) : p.Sgrid.length = p.N_S := by
  simp [FiniteDifferenceSolver.Sgrid, uniform_grid, linspace_length]

theorem row_length (p : FiniteDifferenceSolver) (ex : ℚ → ℚ) (k : ℕ) :
    (p.row ex k).length = p.N_S := by
  induction k with
  | zero =>
      simp [FiniteDifferenceSolver.row, payoff_length, Sgrid_length]
  | succ k ih =>
      simp [FiniteDifferenceSolver.row, apply_boundary_conditions_length,
        interiorUpdate_length, ih]

theorem apply_boundary_conditions_getD_interior (ex : ℚ → ℚ) (V S : List ℚ)
    (K r tau : ℚ) (ot : String) (i : ℕ) (h0 : 0 < i) (hi : i < V.length - 1)
    (d : ℚ) :
    (apply_boundary_conditions ex V S K r tau ot).getD i d = V.getD i d := by
  have h1 : (0 : ℕ) ≠ i := by omega
  have h2 : V.length - 1 ≠ i := by omega
  unfold apply_boundary_conditions
  split <;>
    rw [List.getD_eq_getElem?_getD, List.getElem?_set_ne (by simpa using h2),
      List.getElem?_set_ne h1, ← List.getD_eq_getElem?_getD]

theorem apply_boundary_conditions_getD_zero (ex : ℚ → ℚ) (V S : List ℚ)
    (K r tau : ℚ) (ot : String) (h2 : 2 ≤ V.length) (d : ℚ) :
    (apply_boundary_conditions ex V S K r tau ot).getD 0 d =
      if ot = "call" then 0 else K * ex (-r * tau) := by
  have hne : V.length - 1 ≠ 0 := by omega
  have hlt : 0 < (V.set 0 (0 : ℚ)).length := by simp; omega
  have hlt' : 0 < (V.set 0 (K * ex (-r * tau))).length := by simp; omega
  unfold apply_boundary_conditions
  split <;>
    rw [List.getD_eq_getElem?_getD, List.getElem?_set_ne (by simpa using hne),
      List.getElem?_set_self (by simpa using hlt)] <;> rfl

theorem apply_boundary_conditions_getLastD (ex : ℚ → ℚ) (V S : List ℚ)
    (K r tau : ℚ) (ot : String) (h1 : 1 ≤ V.length) (d : ℚ) :
    (apply_boundary_conditions ex V S K r tau ot).getLastD d =
      if ot = "call" then S.getLastD 0 - K * ex (-r * tau) else 0 := by
  unfold apply_boundary_conditions
  split <;>
    rw [List.getLastD_eq_getLast?, List.getLast?_eq_getElem?] <;>
      simp only [List.length_set] <;>
      rw [List.getElem?_set_self (by simp; omega)] <;> rfl

/-! ### Structural lemmas about the grid refiner `adaptive_grid` -/

theorem adaptive_grid_sorted_le (S : List ℚ) (m : List Bool) :
    (adaptive_grid S m).Sorted (· ≤ ·) :=
  List.Pairwise.sublist (List.dedup_sublist _)
    (List.sorted_insertionSort (· ≤ ·) (refineRawList S m))

theorem adaptive_grid_nodup (S : List ℚ) (m : List Bool) :
    (adaptive_grid S m).Nodup :=
  List.nodup_dedup _

theorem adaptive_grid_sorted_lt (S : List ℚ) (m : List Bool) :
    (adaptive_grid S m).Sorted (· < ·) :=
  (adaptive_grid_sorted_le S m).lt_of_le (adaptive_grid_nodup S m)

theorem mem_adaptive_grid (S : List ℚ) (m : List Bool) (x : ℚ) :
    x ∈ adaptive_grid S m ↔ x ∈ refineRawList S m := by
  unfold adaptive_grid
  rw [List.mem_dedup]
  exact (List.perm_insertionSort (· ≤ ·) (refineRawList S m)).mem_iff

theorem refineRawAux_superset (S : List ℚ) :
    ∀ (m : List Bool) (prev : ℚ) (pm : Bool), m.length = S.length →
      ∀ y ∈ S, y ∈ refineRawAux prev pm S m := by
  induction S with
  | nil => intro m prev pm _ y hy; simp at hy
  | cons z S ih =>
      intro m prev pm hlen y hy
      match m with
      | [] => simp at hlen
      | b :: m' =>
          simp only [refineRawAux]
          rcases List.mem_cons.mp hy with rfl | hy'
          · exact List.mem_cons_self _ _
          · exact List.mem_cons_of_mem _
              (List.mem_append_right _ (ih m' z b (by simpa using hlen) y hy'))

theorem refineRawList_superset (S : List ℚ) (m : List Bool)
    (h : m.length = S.length) : ∀ y ∈ S, y ∈ refineRawList S m := by
  intro y hy
  match S, m with
  | [], _ => simp at hy
  | [z], m =>
      simp at hy
      subst hy
      cases m <;> simp [refineRawList]
  | z1 :: z2 :: S', [] => simp at h
  | z1 :: z2 :: S', b :: m' =>
      simp only [refineRawList]
      rcases List.mem_cons.mp hy with rfl | hy'
      · exact List.mem_cons_self _ _
      · exact List.mem_cons_of_mem _
          (refineRawAux_superset (z2 :: S') m' z1 b (by simpa using h) y hy')

theorem refineRawAux_le (B : ℚ) (S : List ℚ) :
    ∀ (m : List Bool) (prev : ℚ) (pm : Bool), prev ≤ B → (∀ y ∈ S, y ≤ B) →
      ∀ z ∈ refineRawAux prev pm S m, z ≤ B := by
  induction S with
  | nil =>
      intro m prev pm _ _ z hz
      simp [refineRawAux] at hz
  | cons y S' ih =>
      intro m prev pm hprev hS z hz
      match m with
      | [] => simp [refineRawAux] at hz
      | b :: m' =>
          simp only [refineRawAux] at hz
          have hy : y ≤ B := hS y (List.mem_cons_self _ _)
          rcases List.mem_cons.mp hz with rfl | hz' <;>
            [exact hy;
             rcases List.mem_append.mp hz' with hmid | hrec]
          · have hz2 : z = (prev + y) / 2 := by
              split at hmid
              · simp only [List.mem_singleton] at hmid; exact hmid
              · simp at hmid
            subst hz2
            linarith
          · exact ih m' y b hy
              (fun w hw => hS w (List.mem_cons_of_mem _ hw)) z hrec

theorem refineRawList_le (B : ℚ) (S : List ℚ) (m : List Bool)
    (hB : ∀ y ∈ S, y ≤ B) : ∀ z ∈ refineRawList S m, z ≤ B := by
  intro z hz
  match S, m with
  | [], _ => simp [refineRawList] at hz
  | [w], m =>
      have : z = w := by cases m <;> simpa [refineRawList] using hz
      exact this ▸ hB w (by simp)
  | z1 :: z2 :: S', [] =>
      have : z = z1 := by simpa [refineRawList] using hz
      exact this ▸ hB z1 (by simp)
  | z1 :: z2 :: S', b :: m' =>
      simp only [refineRawList] at hz
      have h1 : z1 ≤ B := hB z1 (by simp)
      rcases List.mem_cons.mp hz with rfl | hz'
      · exact h1
      · exact refineRawAux_le B (z2 :: S') m' z1 b h1
          (fun w hw => hB w (List.mem_cons_of_mem _ hw)) z hz'

theorem getLastD_cons_default (z : ℚ) (L : List ℚ) (d e : ℚ) :
    (z :: L).getLastD d = (z :: L).getLastD e := by
  rw [List.getLastD_cons, List.getLastD_cons]

theorem getLastD_mem (L : List ℚ) (hne : L ≠ []) (d : ℚ) :
    L.getLastD d ∈ L := by
  rw [List.getLastD_eq_getLast?, List.getLast?_eq_getLast L hne]
  exact List.getLast_mem hne

theorem sorted_le_getLastD (L : List ℚ) (hs : L.Sorted (· ≤ ·)) :
    ∀ y ∈ L, y ≤ L.getLastD 0 := by
  induction L with
  | nil => intro y hy; simp at hy
  | cons x L ih =>
      intro y hy
      have hcons := List.sorted_cons.mp hs
      cases L with
      | nil =>
          simp at hy
          simp [hy, List.getLastD]
      | cons z L' =>
          rw [List.getLastD_cons, getLastD_cons_default z L' x 0]
          rcases List.mem_cons.mp hy with rfl | hyL
          · have h1 : y ≤ z := hcons.1 z (List.mem_cons_self _ _)
            have h2 := ih hcons.2 z (List.mem_cons_self _ _)
            linarith
          · exact ih hcons.2 y hyL

theorem adaptive_grid_getLastD (S : List ℚ) (m : List Bool)
    (hs : S.Sorted (· ≤ ·)) (hne : S ≠ []) (hm : m.length = S.length) :
    (adaptive_grid S m).getLastD 0 = S.getLastD 0 := by
  have hmemS : S.getLastD 0 ∈ adaptive_grid S m :=
    (mem_adaptive_grid S m _).mpr
      (refineRawList_superset S m hm _ (getLastD_mem S hne 0))
  have hGne : adaptive_grid S m ≠ [] := List.ne_nil_of_mem hmemS
  have h1 : (adaptive_grid S m).getLastD 0 ≤ S.getLastD 0 :=
    refineRawList_le (S.getLastD 0) S m (sorted_le_getLastD S hs) _
      ((mem_adaptive_grid S m _).mp (getLastD_mem _ hGne 0))
  have h2 : S.getLastD 0 ≤ (adaptive_grid S m).getLastD 0 :=
    sorted_le_getLastD _ (adaptive_grid_sorted_le S m) _ hmemS
  linarith

theorem sorted_lt_nodup (L : List ℚ) (hs : L.Sorted (· < ·)) : L.Nodup :=
  hs.imp fun h => ne_of_lt h

theorem adaptive_grid_length_ge (S : List ℚ) (m : List Bool)
    (hs : S.Sorted (· < ·)) (hm : m.length = S.length) :
    S.length ≤ (adaptive_grid S m).length := by
  have hnd : S.Nodup := sorted_lt_nodup S hs
  have hGnd : (adaptive_grid S m).Nodup := adaptive_grid_nodup S m
  have hsub : S.toFinset ⊆ (adaptive_grid S m).toFinset := by
    intro x hx
    exact List.mem_toFinset.mpr ((mem_adaptive_grid S m x).mpr
      (refineRawList_superset S m hm x (List.mem_toFinset.mp hx)))
  calc S.length = S.toFinset.card := (List.toFinset_card_of_nodup hnd).symm
    _ ≤ (adaptive_grid S m).toFinset.card := Finset.card_le_card hsub
    _ = (adaptive_grid S m).length := List.toFinset_card_of_nodup hGnd

theorem adaptive_grid_length_eq_iff (S : List ℚ) (m : List Bool)
    (hs : S.Sorted (· < ·)) (hm : m.length = S.length) :
    (adaptive_grid S m).length = S.length ↔
      ∀ z ∈ refineRawList S m, z ∈ S := by
  have hnd : S.Nodup := sorted_lt_nodup S hs
  have hGnd : (adaptive_grid S m).Nodup := adaptive_grid_nodup S m
  have hsub : S.toFinset ⊆ (adaptive_grid S m).toFinset := by
    intro x hx
    exact List.mem_toFinset.mpr ((mem_adaptive_grid S m x).mpr
      (refineRawList_superset S m hm x (List.mem_toFinset.mp hx)))
  constructor
  · intro he z hz
    have hcards : (adaptive_grid S m).toFinset.card ≤ S.toFinset.card := by
      rw [List.toFinset_card_of_nodup hnd, List.toFinset_card_of_nodup hGnd, he]
    have hfe : S.toFinset = (adaptive_grid S m).toFinset :=
      Finset.eq_of_subset_of_card_le hsub hcards
    have : z ∈ (adaptive_grid S m).toFinset :=
      List.mem_toFinset.mpr ((mem_adaptive_grid S m z).mpr hz)
    rw [← hfe] at this
    exact List.mem_toFinset.mp this
  · intro hback
    have hsub' : (adaptive_grid S m).toFinset ⊆ S.toFinset := by
      intro x hx
      exact List.mem_toFinset.mpr
        (hback x ((mem_adaptive_grid S m x).mp (List.mem_toFinset.mp hx)))
    have hfe : (adaptive_grid S m).toFinset = S.toFinset :=
      Finset.Subset.antisymm hsub' hsub
    rw [← List.toFinset_card_of_nodup hGnd, hfe, List.toFinset_card_of_nodup hnd]

/-! ### Lemmas about `linspace` grids -/

theorem linspace_getLastD (a b : ℚ) (n : ℕ) (h : 2 ≤ n) :
    (linspace a b n).getLastD 0 = b := by
  rw [List.getLastD_eq_getLast?, List.getLast?_eq_getElem?, linspace_length]
  unfold linspace
  rw [List.getElem?_map, List.getElem?_range (by omega : n - 1 < n)]
  have hc : ((n : ℚ) - 1) ≠ 0 := by
    have : (2 : ℚ) ≤ (n : ℚ) := by exact_mod_cast h
    linarith
  have hcast : (((n - 1 : ℕ)) : ℚ) = (n : ℚ) - 1 := by
    push_cast [Nat.cast_sub (by omega : 1 ≤ n)]
    ring
  simp only [Option.map_some', Option.getD_some]
  rw [hcast, mul_div_assoc, div_self hc]
  ring

theorem linspace_sorted_lt (a b : ℚ) (n : ℕ) (hab : a < b) :
    (linspace a b n).Sorted (· < ·) := by
  match n with
  | 0 => exact List.sorted_nil
  | 1 =>
      have : linspace a b 1 = [a + (b - a) * 0 / ((1 : ℚ) - 1)] := rfl
      rw [this]
      exact List.sorted_singleton _
  | (m + 2) =>
      unfold linspace
      refine List.pairwise_map.mpr ?_
      refine (List.pairwise_lt_range _).imp ?_
      intro i j hij
      have hpos : (0 : ℚ) < ((m + 2 : ℕ) : ℚ) - 1 := by push_cast; linarith
      have hba : (0 : ℚ) < b - a := by linarith
      have hij' : (i : ℚ) < (j : ℚ) := by exact_mod_cast hij
      gcongr

/-! ### The all-false mask is a no-op on the raw refined list -/

theorem refineRawAux_allfalse (S : List ℚ) :
    ∀ prev : ℚ, refineRawAux prev false S (List.replicate S.length false) = S := by
  induction S with
  | nil => intro prev; rfl
  | cons y S' ih =>
      intro prev
      rw [List.length_cons, List.replicate_succ]
      simp [refineRawAux, ih y]

theorem refineRawList_allfalse (S : List ℚ) :
    refineRawList S (List.replicate S.length false) = S := by
  match S with
  | [] => rfl
  | [y] => rfl
  | y :: z :: S' =>
      rw [List.length_cons, List.replicate_succ]
      simp only [refineRawList]
      rw [refineRawAux_allfalse (z :: S') y]

/-! ### Lemmas about `npGradient` and the refinement sub-loop -/

theorem npGradient_eq_some (f x grad : List ℚ)
    (h : npGradient f x = some grad) :
    f.length = x.length ∧ 2 ≤ f.length ∧ grad.length = f.length := by
  unfold npGradient at h
  split at h
  · rename_i hc
    obtain rfl : (List.range f.length).map (gradAt f x) = grad :=
      Option.some.inj h
    exact ⟨hc.1, hc.2, by simp⟩
  · exact absurd h (by simp)

theorem absMask_length (tol : ℚ) (grad : List ℚ) :
    (absMask tol grad).length = grad.length := by
  simp [absMask]

/-- Invariant of the refinement sub-loop: starting from a strictly sorted
grid with at least two points, a successful pass returns a strictly sorted
grid of at least two points with the same right endpoint, whose value
array either matches it in length or is the untouched input pair. -/
theorem refineLoop_inv (tol : ℚ) :
    ∀ (fuel : ℕ) (S V Sc Vc : List ℚ), S.Sorted (· < ·) → 2 ≤ S.length →
      refineLoop tol fuel (S, V) = some (Sc, Vc) →
      Sc.Sorted (· < ·) ∧ 2 ≤ Sc.length ∧ Sc.getLastD 0 = S.getLastD 0 ∧
        (Vc.length = Sc.length ∨ (Sc = S ∧ Vc = V)) := by
  intro fuel
  induction fuel with
  | zero =>
      intro S V Sc Vc hs h2 heq
      simp only [refineLoop, Option.some.injEq, Prod.mk.injEq] at heq
      obtain ⟨rfl, rfl⟩ := heq
      exact ⟨hs, h2, rfl, Or.inr ⟨rfl, rfl⟩⟩
  | succ fuel ih =>
      intro S V Sc Vc hs h2 heq
      rw [refineLoop] at heq
      cases hg : npGradient V S with
      | none => rw [hg] at heq; exact absurd heq (by simp)
      | some grad =>
          rw [hg] at heq
          obtain ⟨hlenVS, h2V, hlengrad⟩ := npGradient_eq_some V S grad hg
          simp only at heq
          by_cases hany : (absMask tol grad).any id
          · rw [if_pos hany] at heq
            have hmask : (absMask tol grad).length = S.length := by
              rw [absMask_length, hlengrad, hlenVS]
            by_cases hfix :
                (adaptive_grid S (absMask tol grad)).length = S.length
            · rw [if_pos hfix] at heq
              simp only [Option.some.injEq, Prod.mk.injEq] at heq
              obtain ⟨rfl, rfl⟩ := heq
              exact ⟨hs, h2, rfl, Or.inl (hlenVS.trans rfl)⟩
            · rw [if_neg hfix] at heq
              have hsnew : (adaptive_grid S (absMask tol grad)).Sorted (· < ·) :=
                adaptive_grid_sorted_lt _ _
              have h2new : 2 ≤ (adaptive_grid S (absMask tol grad)).length :=
                le_trans h2 (adaptive_grid_length_ge S _ hs hmask)
              obtain ⟨ha, hb, hc, hd⟩ := ih _ _ _ _ hsnew h2new heq
              refine ⟨ha, hb, ?_, ?_⟩
              · rw [hc]
                exact adaptive_grid_getLastD S _ (hs.imp fun h => le_of_lt h)
                  (by intro hnil; rw [hnil] at h2; simp at h2) hmask
              · rcases hd with hd | ⟨rfl, rfl⟩
                · exact Or.inl hd
                · exact Or.inl (by simp)
          · rw [if_neg hany] at heq
            simp only [Option.some.injEq, Prod.mk.injEq] at heq
            obtain ⟨rfl, rfl⟩ := heq
            exact ⟨hs, h2, rfl, Or.inl (hlenVS.trans rfl)⟩


theorem getD_append_lt {α : Type} (l1 l2 : List α) (n : ℕ) (d : α)
    (h : n < l1.length) : (l1 ++ l2).getD n d = l1.getD n d := by
  rw [List.getD_eq_getElem?_getD, List.getElem?_append_left h,
    ← List.getD_eq_getElem?_getD]

theorem getD_append_len {α : Type} (l1 : List α) (x : α) (n : ℕ) (d : α)
    (h : l1.length = n) : (l1 ++ [x]).getD n d = x := by
  rw [List.getD_eq_getElem?_getD, List.getElem?_append_right (le_of_eq h), h]
  simp

/-- Boundary invariant carried through the adaptive time loop: every
finalized value array (time indices `k-1, …, 0`, read off at reversed
position `n`) has at least two entries, its first entry equals the
closed-form left-boundary value and its last entry the closed-form
right-boundary value with `tau = T - t[n]`, the right endpoint being the
one of the starting grid `S`. -/
theorem adaptiveSteps_spec (ex : ℚ → ℚ) (p : AdaptiveSolver) (S : List ℚ)
    (hs : S.Sorted (· < ·)) (h2 : 2 ≤ S.length) :
    ∀ (k : ℕ) (Vn : List ℚ) (steps : List (List ℚ × List ℚ)),
      2 ≤ Vn.length → p.steps ex S k Vn = some steps →
      steps.length = k ∧
      ∀ n, n < k →
        2 ≤ (steps.reverse.getD n ([], [])).2.length ∧
        (steps.reverse.getD n ([], [])).2.getD 0 0 =
          (if p.option_type = "call" then 0
           else p.K * ex (-p.r * (p.T - (linspace 0 p.T (p.N_t + 1)).getD n 0))) ∧
        (steps.reverse.getD n ([], [])).2.getLastD 0 =
          (if p.option_type = "call"
           then S.getLastD 0 -
             p.K * ex (-p.r * (p.T - (linspace 0 p.T (p.N_t + 1)).getD n 0))
           else 0) := by
  intro k
  induction k with
  | zero =>
      intro Vn steps _ heq
      simp only [AdaptiveSolver.steps, Option.some.injEq] at heq
      subst heq
      exact ⟨rfl, fun n hn => absurd hn (by omega)⟩
  | succ k ih =>
      intro Vn steps h2V heq
      rw [AdaptiveSolver.steps] at heq
      cases ht : p.timeStep ex S Vn k with
      | none => simp only [ht] at heq; exact absurd heq (by simp)
      | some pair =>
          obtain ⟨Sc, Vnew⟩ := pair
          simp only [ht] at heq
          cases hr : p.steps ex S k Vnew with
          | none => simp only [hr] at heq; exact absurd heq (by simp)
          | some rest =>
              simp only [hr, Option.some.injEq] at heq
              subst heq
              -- unpack the time step
              rw [AdaptiveSolver.timeStep] at ht
              cases hrl : refineLoop p.refine_tol p.max_refine_steps (S, Vn) with
              | none => simp only [hrl] at ht; exact absurd ht (by simp)
              | some st =>
                  obtain ⟨Sc', Vc⟩ := st
                  simp only [hrl, Option.some.injEq, Prod.mk.injEq] at ht
                  obtain ⟨rfl, rfl⟩ := ht
                  obtain ⟨hscs, h2sc, hlast, hvd⟩ :=
                    refineLoop_inv p.refine_tol p.max_refine_steps S Vn Sc' Vc hs h2 hrl
                  have hVclen : 2 ≤ Vc.length := by
                    rcases hvd with hvd | ⟨_, rfl⟩
                    · omega
                    · exact h2V
                  have hVnewlen :
                      2 ≤ (apply_boundary_conditions ex
                        (nonUniformUpdate p.sigma p.r
                          ((linspace 0 p.T (p.N_t + 1)).getD 1 0 -
                            (linspace 0 p.T (p.N_t + 1)).getD 0 0) Sc' Vc)
                        Sc' p.K p.r
                        (p.T - (linspace 0 p.T (p.N_t + 1)).getD k 0)
                        p.option_type).length := by
                    rw [apply_boundary_conditions_length, nonUniformUpdate_length]
                    exact hVclen
                  obtain ⟨hrlen, hrprops⟩ := ih _ _ hVnewlen hr
                  have hrevlen : rest.reverse.length = k := by
                    rw [List.length_reverse, hrlen]
                  constructor
                  · simp [hrlen]
                  · intro n hn
                    rw [List.reverse_cons]
                    by_cases hnk : n < k
                    · rw [getD_append_lt _ _ _ _ (by omega)]
                      exact hrprops n hnk
                    · have hnk' : n = k := by omega
                      subst hnk'
                      rw [getD_append_len _ _ _ _ hrevlen]
                      refine ⟨hVnewlen, ?_, ?_⟩
                      · exact apply_boundary_conditions_getD_zero _ _ _ _ _ _ _
                          (by rw [nonUniformUpdate_length]; exact hVclen) 0
                      · rw [apply_boundary_conditions_getLastD _ _ _ _ _ _ _
                          (by rw [nonUniformUpdate_length]; omega) 0, hlast]

/-! ### Uniform solver: grid endpoints and row access -/

theorem Sgrid_getLastD (p : FiniteDifferenceSolver) (h2 : 2 ≤ p.N_S) :
    p.Sgrid.getLastD 0 = p.S_max := by
  unfold FiniteDifferenceSolver.Sgrid uniform_grid
  exact linspace_getLastD 0 p.S_max p.N_S h2

theorem dS_eq (p : FiniteDifferenceSolver) (h2 : 2 ≤ p.N_S) :
    p.dS = p.S_max / ((p.N_S : ℚ) - 1) := by
  unfold FiniteDifferenceSolver.dS FiniteDifferenceSolver.Sgrid uniform_grid
  rw [linspace_getD 0 p.S_max p.N_S 1 (by omega) 0,
    linspace_getD 0 p.S_max p.N_S 0 (by omega) 0]
  push_cast
  ring

theorem dt_eq (p : FiniteDifferenceSolver) (h1 : 1 ≤ p.N_t) :
    p.dt = p.T / (p.N_t : ℚ) := by
  unfold FiniteDifferenceSolver.dt FiniteDifferenceSolver.tgrid
  rw [linspace_getD 0 p.T (p.N_t + 1) 1 (by omega) 0,
    linspace_getD 0 p.T (p.N_t + 1) 0 (by omega) 0]
  push_cast
  ring

theorem interiorUpdate_getD (sigma r dt dS : ℚ) (N_S : ℕ) (S Vp : List ℚ)
    (i : ℕ) (hc1 : 1 ≤ i) (hc2 : i + 1 < N_S) (hilen : i < Vp.length) :
    (interiorUpdate sigma r dt dS N_S S Vp).getD i 0 =
      Vp.getD i 0 + dt *
        (1/2 * sigma ^ 2 * (S.getD i 0) ^ 2 *
          ((Vp.getD (i + 1) 0 - 2 * Vp.getD i 0 + Vp.getD (i - 1) 0) / dS ^ 2)
         + r * S.getD i 0 *
          ((Vp.getD (i + 1) 0 - Vp.getD (i - 1) 0) / (2 * dS))
         - r * Vp.getD i 0) := by
  unfold interiorUpdate
  rw [List.getD_eq_getElem?_getD, List.getElem?_map, List.getElem?_range hilen]
  simp only [Option.map_some', Option.getD_some, if_pos (And.intro hc1 hc2)]

/-- Boundary entries of every row the uniform solver computes during time
stepping (time indices `n < N_t`). -/
theorem uniform_boundary (ex : ℚ → ℚ) (p : FiniteDifferenceSolver)
    (h2 : 2 ≤ p.N_S) (n : ℕ) (hn : n < p.N_t) :
    (p.V ex n).getD 0 0 =
      (if p.option_type = "call" then 0
       else p.K * ex (-p.r * (p.T - p.tgrid.getD n 0))) ∧
    (p.V ex n).getLastD 0 =
      (if p.option_type = "call"
       then p.S_max - p.K * ex (-p.r * (p.T - p.tgrid.getD n 0))
       else 0) := by
  have hk : p.N_t - n = (p.N_t - n - 1) + 1 := by omega
  have hidx : p.N_t - (p.N_t - n - 1 + 1) = n := by omega
  have hlen : (interiorUpdate p.sigma p.r p.dt p.dS p.N_S p.Sgrid
      (p.row ex (p.N_t - n - 1))).length = p.N_S := by
    rw [interiorUpdate_length, row_length]
  rw [FiniteDifferenceSolver.V, hk, FiniteDifferenceSolver.row, hidx]
  constructor
  · rw [apply_boundary_conditions_getD_zero _ _ _ _ _ _ _ (by omega) 0]
  · rw [apply_boundary_conditions_getLastD _ _ _ _ _ _ _ (by omega) 0,
      Sgrid_getLastD p h2]

/-! ### Claim theorems -/

/-- C7: for every strictly increasing grid and aligned flag array,
`adaptive_grid` (the spec's `refine`) returns a sorted-ascending,
duplicate-free list containing every input point, hence of length at
least the input's, with equality exactly when every point of the raw
refined list (the input points together with all inserted midpoints) was
already an existing grid point. -/
theorem claim_C7_refine_superset (S : List ℚ) (m : List Bool)
    (hs : S.Sorted (· < ·)) (hm : m.length = S.length) :
    (adaptive_grid S m).Sorted (· < ·) ∧
    (∀ x ∈ S, x ∈ adaptive_grid S m) ∧
    S.length ≤ (adaptive_grid S m).length ∧
    ((adaptive_grid S m).length = S.length ↔
      ∀ z ∈ refineRawList S m, z ∈ S) := by
  refine ⟨adaptive_grid_sorted_lt S m, ?_, adaptive_grid_length_ge S m hs hm,
    adaptive_grid_length_eq_iff S m hs hm⟩
  intro x hx
  exact (mem_adaptive_grid S m x).mpr (refineRawList_superset S m hm x hx)

theorem claim_C7_witness :
    ([0, 1] : List ℚ).Sorted (· < ·) ∧
    ([true, false] : List Bool).length = ([0, 1] : List ℚ).length ∧
    ((adaptive_grid [0, 1] [true, false]).Sorted (· < ·) ∧
     (∀ x ∈ ([0, 1] : List ℚ), x ∈ adaptive_grid [0, 1] [true, false]) ∧
     ([0, 1] : List ℚ).length ≤ (adaptive_grid [0, 1] [true, false]).length ∧
     ((adaptive_grid [0, 1] [true, false]).length = ([0, 1] : List ℚ).length ↔
       ∀ z ∈ refineRawList [0, 1] [true, false], z ∈ ([0, 1] : List ℚ))) :=
  ⟨by decide, by decide,
   claim_C7_refine_superset [0, 1] [true, false] (by decide) (by decide)⟩

/-- C8: refining with an all-false flag array returns the input re-sorted
and deduplicated, and refining any `adaptive_grid` output with all-false
flags is the identity (idempotent no-op). -/
theorem claim_C8_allfalse_noop :
    (∀ S : List ℚ, adaptive_grid S (List.replicate S.length false) =
      (S.insertionSort (· ≤ ·)).dedup) ∧
    ∀ (S : List ℚ) (m : List Bool),
      adaptive_grid (adaptive_grid S m)
        (List.replicate (adaptive_grid S m).length false) = adaptive_grid S m := by
  have hbase : ∀ S : List ℚ, adaptive_grid S (List.replicate S.length false) =
      (S.insertionSort (· ≤ ·)).dedup := by
    intro S
    unfold adaptive_grid
    rw [refineRawList_allfalse]
  refine ⟨hbase, fun S m => ?_⟩
  rw [hbase (adaptive_grid S m),
    (adaptive_grid_sorted_le S m).insertionSort_eq,
    List.dedup_eq_self.mpr (adaptive_grid_nodup S m)]

/-- C9: `apply_boundary_conditions` (the spec's `boundary`) returns an
array of the same length as its input that agrees with the input at every
index other than the first and the last. -/
theorem claim_C9_boundary_frame (ex : ℚ → ℚ) (V S : List ℚ) (K r tau : ℚ)
    (ot : String) (h2 : 2 ≤ V.length) :
    (apply_boundary_conditions ex V S K r tau ot).length = V.length ∧
    ∀ i, 0 < i → i < V.length - 1 →
      (apply_boundary_conditions ex V S K r tau ot).getD i 0 = V.getD i 0 := by
  have := h2
  exact ⟨apply_boundary_conditions_length ex V S K r tau ot,
    fun i h0 hi =>
      apply_boundary_conditions_getD_interior ex V S K r tau ot i h0 hi 0⟩

theorem claim_C9_witness :
    2 ≤ ([1, 2, 3] : List ℚ).length ∧
    ((apply_boundary_conditions exOne [1, 2, 3] [0, 1, 2] 1 0 0 "call").length =
      ([1, 2, 3] : List ℚ).length ∧
     ∀ i, 0 < i → i < ([1, 2, 3] : List ℚ).length - 1 →
       (apply_boundary_conditions exOne [1, 2, 3] [0, 1, 2] 1 0 0 "call").getD i 0 =
         ([1, 2, 3] : List ℚ).getD i 0) :=
  ⟨by decide,
   claim_C9_boundary_frame exOne [1, 2, 3] [0, 1, 2] 1 0 0 "call" (by decide)⟩

/-- The same uniform-solver configuration with `option_type` replaced by
the literal `"put"` (for comparing against the else-branch behaviour). -/
def putFD (p : FiniteDifferenceSolver) : FiniteDifferenceSolver :=
  { p with option_type := "put" }

/-- The same adaptive-solver configuration with `option_type := "put"`. -/
def putSolver (p : AdaptiveSolver) : AdaptiveSolver :=
  { p with toFiniteDifferenceSolver := putFD p.toFiniteDifferenceSolver }

/-- A small adaptive configuration (S_max=2, K=1, r=0, sigma=1, T=1,
N_S=3, N_t=2, call, refine_tol=1/100, max_refine_steps=1) whose first
backward time step refines the mesh from 3 to 5 points; with `r = 0` the
source evaluates `np.exp` only at `0`, where it equals `exOne`. -/
def cfgBug : AdaptiveSolver :=
  { S_max := 2, K := 1, r := 0, sigma := 1, T := 1, N_S := 3, N_t := 2,
    option_type := "call", refine_tol := 1/100, max_refine_steps := 1 }

/-- The same configuration with a single time step, on which the adaptive
solver runs to completion. -/
def cfgW1 : AdaptiveSolver :=
  { S_max := 2, K := 1, r := 0, sigma := 1, T := 1, N_S := 3, N_t := 1,
    option_type := "call", refine_tol := 1/100, max_refine_steps := 1 }

/-- An adaptive configuration whose `option_type` is the invalid string
`"foo"`. -/
def cfgFoo : AdaptiveSolver :=
  { S_max := 2, K := 1, r := 0, sigma := 1, T := 1, N_S := 3, N_t := 1,
    option_type := "foo", refine_tol := 1/100, max_refine_steps := 1 }

/-- A uniform configuration with `S_max = 1 < K = 2` and `r = 0`, used to
evaluate the boundary formulas at maturity. -/
def cfgCE : FiniteDifferenceSolver :=
  { S_max := 1, K := 2, r := 0, sigma := 1, T := 1, N_S := 2, N_t := 1,
    option_type := "call" }

/-- A uniform 4-point, 2-step call configuration for concrete interior
evaluations. -/
def cfgC3 : FiniteDifferenceSolver :=
  { S_max := 2, K := 1, r := 0, sigma := 1, T := 1, N_S := 4, N_t := 2,
    option_type := "call" }

/-- C1 (refuted by the code — evidence at a concrete input): at
configuration `cfgBug` the step for time index 1 succeeds and stores a
value array of length 5, while the mesh handed to the next refinement
sub-loop is the initial 3-point uniform grid (solvers.py line 69 resets
`S_curr = S.copy()` instead of carrying the refined mesh of time index
n+1), so the pair entering the sub-loop is not index-aligned and
`solve` aborts with the `ValueError` of `np.gradient` instead of running
to completion. -/
theorem claim_C1_subloop_not_aligned :
    (AdaptiveSolver.timeStep cfgBug exOne (uniform_grid 0 cfgBug.S_max cfgBug.N_S)
        (payoff (uniform_grid 0 cfgBug.S_max cfgBug.N_S) cfgBug.K cfgBug.option_type) 1).map
        (fun st => st.2.length) = some 5 ∧
    (uniform_grid 0 cfgBug.S_max cfgBug.N_S).length = 3 ∧
    AdaptiveSolver.solve cfgBug exOne = none := by
  with_unfolding_all decide

/-- C6 (refuted by the code — evidence at a concrete input): at `cfgBug`
the first backward time step (time index 1) completes, and the refinement
sub-loop of the following time step — fed, as in solvers.py lines 69-72,
the initial uniform grid paired with the values finalized at time index
1 — terminates by raising (`np.gradient` `ValueError`, modelled as
`none`), not by the flag/fixed-point/`max_refine_steps` exits. -/
theorem claim_C6_subloop_raises :
    AdaptiveSolver.timeStep cfgBug exOne (uniform_grid 0 cfgBug.S_max cfgBug.N_S)
        (payoff (uniform_grid 0 cfgBug.S_max cfgBug.N_S) cfgBug.K cfgBug.option_type) 1 ≠
      none ∧
    (AdaptiveSolver.timeStep cfgBug exOne (uniform_grid 0 cfgBug.S_max cfgBug.N_S)
        (payoff (uniform_grid 0 cfgBug.S_max cfgBug.N_S) cfgBug.K cfgBug.option_type) 1).map
      (fun st => refineLoop cfgBug.refine_tol cfgBug.max_refine_steps
        (uniform_grid 0 cfgBug.S_max cfgBug.N_S, st.2)) = some none := by
  with_unfolding_all decide

/-- C2 (refuted by the code — evidence at a concrete input): constructing
a solver with the invalid option type `"foo"` is not rejected anywhere;
`solve()` runs to completion and returns the full numeric matrix that the
`"put"` configuration produces, instead of failing fast before any
computation. -/
theorem claim_C2_no_fail_fast :
    FiniteDifferenceSolver.solve cfgFoo.toFiniteDifferenceSolver exOne =
      ([0, 1, 2], [0, 1], [[1, 1/2, 0], [1, 0, 0]]) ∧
    FiniteDifferenceSolver.solve cfgFoo.toFiniteDifferenceSolver exOne =
      FiniteDifferenceSolver.solve (putFD cfgFoo.toFiniteDifferenceSolver) exOne := by
  with_unfolding_all decide

/-- C3: for the uniform solver, every interior entry at time index
`n < N_t` is exactly the explicit central-difference update of the row at
time index `n+1`, with `delta`, `gamma` formed from the `n+1` row and the
fixed spacings `dS = S_max/(N_S-1)`, `dt = T/N_t` (level `n` depends only
on level `n+1`). -/
theorem claim_C3_uniform_interior_update (ex : ℚ → ℚ)
    (p : FiniteDifferenceSolver) (n i : ℕ) (hn : n < p.N_t) (hi0 : 0 < i)
    (hi : i < p.N_S - 1) :
    ((p.V ex n).getD i 0 =
      (p.V ex (n + 1)).getD i 0 + p.dt *
        (1/2 * p.sigma ^ 2 * (p.Sgrid.getD i 0) ^ 2 *
          (((p.V ex (n + 1)).getD (i + 1) 0 - 2 * (p.V ex (n + 1)).getD i 0 +
            (p.V ex (n + 1)).getD (i - 1) 0) / p.dS ^ 2)
         + p.r * p.Sgrid.getD i 0 *
          (((p.V ex (n + 1)).getD (i + 1) 0 - (p.V ex (n + 1)).getD (i - 1) 0) /
            (2 * p.dS))
         - p.r * (p.V ex (n + 1)).getD i 0)) ∧
    p.dS = p.S_max / ((p.N_S : ℚ) - 1) ∧ p.dt = p.T / (p.N_t : ℚ) := by
  have hNS : 3 ≤ p.N_S := by omega
  have hk : p.N_t - n = (p.N_t - n - 1) + 1 := by omega
  refine ⟨?_, dS_eq p (by omega), dt_eq p (by omega)⟩
  rw [FiniteDifferenceSolver.V, hk, FiniteDifferenceSolver.row]
  rw [apply_boundary_conditions_getD_interior _ _ _ _ _ _ _ i hi0
    (by rw [interiorUpdate_length, row_length]; omega) 0]
  rw [interiorUpdate_getD _ _ _ _ _ _ _ i (by omega) (by omega)
    (by rw [row_length]; omega)]
  rfl

theorem claim_C3_witness :
    1 < cfgC3.N_t ∧ 0 < 1 ∧ 1 < cfgC3.N_S - 1 ∧
    (((cfgC3.V exOne 1).getD 1 0 =
      (cfgC3.V exOne 2).getD 1 0 + cfgC3.dt *
        (1/2 * cfgC3.sigma ^ 2 * (cfgC3.Sgrid.getD 1 0) ^ 2 *
          (((cfgC3.V exOne 2).getD 2 0 - 2 * (cfgC3.V exOne 2).getD 1 0 +
            (cfgC3.V exOne 2).getD 0 0) / cfgC3.dS ^ 2)
         + cfgC3.r * cfgC3.Sgrid.getD 1 0 *
          (((cfgC3.V exOne 2).getD 2 0 - (cfgC3.V exOne 2).getD 0 0) /
            (2 * cfgC3.dS))
         - cfgC3.r * (cfgC3.V exOne 2).getD 1 0)) ∧
     cfgC3.dS = cfgC3.S_max / ((cfgC3.N_S : ℚ) - 1) ∧
     cfgC3.dt = cfgC3.T / (cfgC3.N_t : ℚ)) :=
  ⟨by decide, by decide, by decide,
   claim_C3_uniform_interior_update exOne cfgC3 1 1 (by decide) (by decide)
     (by decide)⟩

theorem getD_map_snd_append (steps : List (List ℚ × List ℚ))
    (L : List (List ℚ)) (n : ℕ) (h : n < steps.length) :
    (steps.reverse.map Prod.snd ++ L).getD n [] =
      (steps.reverse.getD n ([], [])).2 := by
  have hn : n < (steps.reverse.map Prod.snd).length := by
    rw [List.length_map, List.length_reverse]; exact h
  have hn' : n < steps.reverse.length := by rw [List.length_reverse]; exact h
  rw [getD_append_lt _ _ _ _ hn, List.getD_eq_getElem?_getD, List.getElem?_map,
    List.getElem?_eq_getElem hn', List.getD_eq_getElem?_getD,
    List.getElem?_eq_getElem hn']
  rfl

/-- C4 as stated is refuted at time index `N_t` (maturity): there the
stored row is the terminal payoff, which differs from the closed-form
right-boundary formula whenever `S_max < K` for a call — at `cfgCE`
(`S_max = 1`, `K = 2`, `r = 0`, where `exOne` agrees with `np.exp`) the
last entry is `0` while the formula gives `-1`. -/
theorem claim_C4_counterexample :
    (cfgCE.V exOne cfgCE.N_t).getLastD 0 ≠
      cfgCE.S_max - cfgCE.K *
        exOne (-cfgCE.r * (cfgCE.T - cfgCE.tgrid.getD cfgCE.N_t 0)) := by
  with_unfolding_all decide

/-- C4 (amended): for both solvers, at every time step `n < N_t` — the
rows produced by time stepping — the first and last entries of the value
array at time index `n` equal the closed-form boundary formulas with
`tau = T - t_n`: for a call `0` on the left and `S_max - K*exp(-r*tau)`
on the right, otherwise (put branch) `K*exp(-r*tau)` on the left and `0`
on the right.  (At `n = N_t` the stored row is the payoff instead.) -/
theorem claim_C4_amended (ex : ℚ → ℚ) (p : AdaptiveSolver) (h2 : 2 ≤ p.N_S)
    (hS : 0 < p.S_max) :
    (∀ n, n < p.N_t →
      (p.toFiniteDifferenceSolver.V ex n).getD 0 0 =
        (if p.option_type = "call" then 0
         else p.K * ex (-p.r * (p.T - p.toFiniteDifferenceSolver.tgrid.getD n 0))) ∧
      (p.toFiniteDifferenceSolver.V ex n).getLastD 0 =
        (if p.option_type = "call"
         then p.S_max - p.K * ex (-p.r * (p.T - p.toFiniteDifferenceSolver.tgrid.getD n 0))
         else 0)) ∧
    (∀ res, p.solve ex = some res → ∀ n, n < p.N_t →
      (res.2.2.getD n []).getD 0 0 =
        (if p.option_type = "call" then 0
         else p.K * ex (-p.r * (p.T - p.toFiniteDifferenceSolver.tgrid.getD n 0))) ∧
      (res.2.2.getD n []).getLastD 0 =
        (if p.option_type = "call"
         then p.S_max - p.K * ex (-p.r * (p.T - p.toFiniteDifferenceSolver.tgrid.getD n 0))
         else 0)) := by
  constructor
  · intro n hn
    exact uniform_boundary ex p.toFiniteDifferenceSolver h2 n hn
  · intro res hres n hn
    rw [AdaptiveSolver.solve, Option.map_eq_some'] at hres
    obtain ⟨steps, hst, hres⟩ := hres
    subst hres
    have hsort : (uniform_grid 0 p.S_max p.N_S).Sorted (· < ·) :=
      linspace_sorted_lt 0 p.S_max p.N_S hS
    have hlen : 2 ≤ (uniform_grid 0 p.S_max p.N_S).length := by
      unfold uniform_grid
      rw [linspace_length]
      exact h2
    have hpay :
        2 ≤ (payoff (uniform_grid 0 p.S_max p.N_S) p.K p.option_type).length := by
      rw [payoff_length]
      exact hlen
    obtain ⟨hslen, hprops⟩ :=
      adaptiveSteps_spec ex p _ hsort hlen p.N_t _ steps hpay hst
    obtain ⟨hq2, hq0, hqL⟩ := hprops n hn
    have hSmax : (uniform_grid 0 p.S_max p.N_S).getLastD 0 = p.S_max := by
      unfold uniform_grid
      exact linspace_getLastD 0 p.S_max p.N_S h2
    rw [hSmax] at hqL
    have hmap : ((steps.reverse.map Prod.snd ++
        [payoff (uniform_grid 0 p.S_max p.N_S) p.K p.option_type]).getD n []) =
        (steps.reverse.getD n ([], [])).2 :=
      getD_map_snd_append steps _ n (by omega)
    dsimp only
    rw [hmap]
    exact ⟨hq0, hqL⟩

theorem claim_C4_witness :
    2 ≤ cfgW1.N_S ∧ 0 < cfgW1.S_max ∧
    ((∀ n, n < cfgW1.N_t →
      (cfgW1.toFiniteDifferenceSolver.V exOne n).getD 0 0 =
        (if cfgW1.option_type = "call" then 0
         else cfgW1.K * exOne (-cfgW1.r *
           (cfgW1.T - cfgW1.toFiniteDifferenceSolver.tgrid.getD n 0))) ∧
      (cfgW1.toFiniteDifferenceSolver.V exOne n).getLastD 0 =
        (if cfgW1.option_type = "call"
         then cfgW1.S_max - cfgW1.K * exOne (-cfgW1.r *
           (cfgW1.T - cfgW1.toFiniteDifferenceSolver.tgrid.getD n 0))
         else 0)) ∧
    (∀ res, cfgW1.solve exOne = some res → ∀ n, n < cfgW1.N_t →
      (res.2.2.getD n []).getD 0 0 =
        (if cfgW1.option_type = "call" then 0
         else cfgW1.K * exOne (-cfgW1.r *
           (cfgW1.T - cfgW1.toFiniteDifferenceSolver.tgrid.getD n 0))) ∧
      (res.2.2.getD n []).getLastD 0 =
        (if cfgW1.option_type = "call"
         then cfgW1.S_max - cfgW1.K * exOne (-cfgW1.r *
           (cfgW1.T - cfgW1.toFiniteDifferenceSolver.tgrid.getD n 0))
         else 0))) :=
  ⟨by decide, by with_unfolding_all decide,
   claim_C4_amended exOne cfgW1 (by decide) (by with_unfolding_all decide)⟩

/-- C5: for both solvers the value array stored at time index `N_t`
(maturity) is exactly the payoff of the initial grid — elementwise
`max(S-K,0)` in the call branch and `max(K-S,0)` otherwise; for the
adaptive solver, whenever `solve` returns, the last entry of its `V_list`
(index `N_t`) is that payoff. -/
theorem claim_C5_maturity_payoff (ex : ℚ → ℚ) (p : AdaptiveSolver) :
    p.toFiniteDifferenceSolver.V ex p.N_t =
      payoff p.toFiniteDifferenceSolver.Sgrid p.K p.option_type ∧
    (p.option_type = "call" →
      payoff p.toFiniteDifferenceSolver.Sgrid p.K p.option_type =
        p.toFiniteDifferenceSolver.Sgrid.map fun s => max (s - p.K) 0) ∧
    (p.option_type ≠ "call" →
      payoff p.toFiniteDifferenceSolver.Sgrid p.K p.option_type =
        p.toFiniteDifferenceSolver.Sgrid.map fun s => max (p.K - s) 0) ∧
    (∀ res, p.solve ex = some res →
      res.2.2.getLast? =
        some (payoff (uniform_grid 0 p.S_max p.N_S) p.K p.option_type)) := by
  refine ⟨?_, ?_, ?_, ?_⟩
  · rw [FiniteDifferenceSolver.V, Nat.sub_self]
    rfl
  · intro h
    unfold payoff
    rw [if_pos h]
  · intro h
    unfold payoff
    rw [if_neg h]
  · intro res hres
    rw [AdaptiveSolver.solve, Option.map_eq_some'] at hres
    obtain ⟨steps, _, hres⟩ := hres
    subst hres
    dsimp only
    exact List.getLast?_concat _

theorem claim_C5_witness :
    cfgW1.toFiniteDifferenceSolver.V exOne cfgW1.N_t =
      payoff cfgW1.toFiniteDifferenceSolver.Sgrid cfgW1.K cfgW1.option_type ∧
    payoff cfgW1.toFiniteDifferenceSolver.Sgrid cfgW1.K cfgW1.option_type =
      cfgW1.toFiniteDifferenceSolver.Sgrid.map (fun s => max (s - cfgW1.K) 0) ∧
    ((AdaptiveSolver.solve cfgW1 exOne).getD ([], [], [])).2.2.getLast? =
      some (payoff (uniform_grid 0 cfgW1.S_max cfgW1.N_S) cfgW1.K
        cfgW1.option_type) :=
  ⟨(claim_C5_maturity_payoff exOne cfgW1).1,
   (claim_C5_maturity_payoff exOne cfgW1).2.1 rfl,
   (claim_C5_maturity_payoff exOne cfgW1).2.2.2 _ (by with_unfolding_all rfl)⟩

theorem payoff_ot_irrel (S : List ℚ) (K : ℚ) (ot : String) (h : ot ≠ "call") :
    payoff S K ot = payoff S K "put" := by
  unfold payoff
  rw [if_neg h, if_neg (by decide)]

theorem apply_bc_ot_irrel (ex : ℚ → ℚ) (V S : List ℚ) (K r tau : ℚ)
    (ot : String) (h : ot ≠ "call") :
    apply_boundary_conditions ex V S K r tau ot =
      apply_boundary_conditions ex V S K r tau "put" := by
  unfold apply_boundary_conditions
  rw [if_neg h, if_neg (by decide)]

theorem row_ot_irrel (ex : ℚ → ℚ) (p : FiniteDifferenceSolver)
    (h : p.option_type ≠ "call") (k : ℕ) :
    p.row ex k = (putFD p).row ex k := by
  induction k with
  | zero => exact payoff_ot_irrel p.Sgrid p.K p.option_type h
  | succ k ih =>
      show apply_boundary_conditions ex
          (interiorUpdate p.sigma p.r p.dt p.dS p.N_S p.Sgrid (p.row ex k))
          p.Sgrid p.K p.r (p.T - p.tgrid.getD (p.N_t - (k + 1)) 0)
          p.option_type = _
      rw [ih]
      exact apply_bc_ot_irrel ex _ p.Sgrid p.K p.r _ p.option_type h

theorem timeStep_ot_irrel (ex : ℚ → ℚ) (p : AdaptiveSolver)
    (h : p.option_type ≠ "call") (S Vn : List ℚ) (n : ℕ) :
    p.timeStep ex S Vn n = (putSolver p).timeStep ex S Vn n := by
  rw [AdaptiveSolver.timeStep, AdaptiveSolver.timeStep]
  dsimp only [putSolver, putFD]
  cases hrl : refineLoop p.refine_tol p.max_refine_steps (S, Vn) with
  | none => simp only [hrl]
  | some st =>
      obtain ⟨Sc, Vc⟩ := st
      simp only [hrl]
      rw [apply_bc_ot_irrel ex _ Sc p.K p.r _ p.option_type h]

theorem steps_ot_irrel (ex : ℚ → ℚ) (p : AdaptiveSolver)
    (h : p.option_type ≠ "call") (S : List ℚ) :
    ∀ (k : ℕ) (Vn : List ℚ), p.steps ex S k Vn = (putSolver p).steps ex S k Vn := by
  intro k
  induction k with
  | zero => intro Vn; rfl
  | succ k ih =>
      intro Vn
      rw [AdaptiveSolver.steps, AdaptiveSolver.steps,
        ← timeStep_ot_irrel ex p h S Vn k]
      cases ht : p.timeStep ex S Vn k with
      | none => rfl
      | some pair =>
          obtain ⟨Sc, Vnew⟩ := pair
          simp only [ht]
          rw [ih Vnew]

/-- C10: any option type other than the exact string `"call"` silently
selects the put branch everywhere: `payoff` and
`apply_boundary_conditions` compute the put formulas, and both solvers
produce exactly the output of the same configuration with
`option_type = "put"` — no validation or rejection happens anywhere. -/
theorem claim_C10_invalid_type_priced_as_put (ex : ℚ → ℚ) (p : AdaptiveSolver)
    (h : p.option_type ≠ "call") :
    payoff (uniform_grid 0 p.S_max p.N_S) p.K p.option_type =
      (uniform_grid 0 p.S_max p.N_S).map (fun s => max (p.K - s) 0) ∧
    (∀ (V S : List ℚ) (K r tau : ℚ),
      apply_boundary_conditions ex V S K r tau p.option_type =
        apply_boundary_conditions ex V S K r tau "put") ∧
    p.toFiniteDifferenceSolver.solve ex =
      (putFD p.toFiniteDifferenceSolver).solve ex ∧
    p.solve ex = (putSolver p).solve ex := by
  refine ⟨?_, ?_, ?_, ?_⟩
  · unfold payoff
    rw [if_neg h]
  · intro V S K r tau
    exact apply_bc_ot_irrel ex V S K r tau p.option_type h
  · unfold FiniteDifferenceSolver.solve
    have hV : ∀ n ∈ List.range (p.N_t + 1),
        p.toFiniteDifferenceSolver.V ex n =
          (putFD p.toFiniteDifferenceSolver).V ex n := by
      intro n _
      unfold FiniteDifferenceSolver.V
      exact row_ot_irrel ex p.toFiniteDifferenceSolver h _
    rw [List.map_congr_left hV]
    rfl
  · unfold AdaptiveSolver.solve
    dsimp only
    rw [payoff_ot_irrel _ _ _ h, steps_ot_irrel ex p h _ p.N_t _]
    rfl

theorem claim_C10_witness :
    cfgFoo.option_type ≠ "call" ∧
    (payoff (uniform_grid 0 cfgFoo.S_max cfgFoo.N_S) cfgFoo.K cfgFoo.option_type =
      (uniform_grid 0 cfgFoo.S_max cfgFoo.N_S).map (fun s => max (cfgFoo.K - s) 0) ∧
     (∀ (V S : List ℚ) (K r tau : ℚ),
       apply_boundary_conditions exOne V S K r tau cfgFoo.option_type =
         apply_boundary_conditions exOne V S K r tau "put") ∧
     cfgFoo.toFiniteDifferenceSolver.solve exOne =
       (putFD cfgFoo.toFiniteDifferenceSolver).solve exOne ∧
     cfgFoo.solve exOne = (putSolver cfgFoo).solve exOne) :=
  ⟨by decide, claim_C10_invalid_type_priced_as_put exOne cfgFoo (by decide)⟩
